import Mathlib

/-!
Verification of the `actix-embed` request-handling core.

The definitions below are a shallow embedding of the Rust sources:
  * `src/service.rs`   — the `Embed` builder and `EmbedService::call`
  * `src/fallback_handler.rs` — the `FallbackHandler` trait and its default

Bytes are modelled as `Nat` (the Rust code works with `u8`; nothing in the
handler logic depends on the 256 bound, hex encoding reads only the low two
nibbles exactly as `b >> 4` and `b & 0xf` do for a `u8`).  Strings stay
Lean `String`s; the Rust helpers `trim_start_matches('/')` and
`trim_end_matches('/')` — which remove *all* matching characters from the
respective end — are modelled on the underlying character list.
-/

namespace ActixEmbed

/-- HTTP method, as compared by `Method::GET.ne(req.method())` in `call`. -/
inductive Method where
  | GET
  | POST
  | PUT
  | DELETE
  | HEAD
  | OPTIONS
  | PATCH
deriving DecidableEq, Repr

/-- A raw HTTP header value: an arbitrary byte sequence (the `http` crate's
`HeaderValue`). -/
structure HeaderValue where
  bytes : List Nat
deriving DecidableEq, Repr

/-- The byte classes accepted by `HeaderValue::to_str` in the `http` crate:
visible ASCII (32–126) plus horizontal tab. -/
def isVisibleAscii (b : Nat) : Bool :=
  (decide (32 ≤ b) && decide (b < 127)) || b == 9

/-- `HeaderValue::to_str`: succeeds exactly when every byte is visible
ASCII (or tab); the Rust code calls `.unwrap_or("0")` on the result. -/
def HeaderValue.to_str (v : HeaderValue) : Option String :=
  if v.bytes.all isVisibleAscii then
    some (String.mk (v.bytes.map Char.ofNat))
  else
    none

/-- Build a header value from a string's characters (how a client would send
an `If-None-Match` header holding a previously received ASCII ETag). -/
def HeaderValue.ofString (s : String) : HeaderValue :=
  ⟨s.toList.map Char.toNat⟩

/-- The slice of an actix `ServiceRequest` read by `EmbedService::call`:
method, URI path and the `If-None-Match` header (absent or some raw value). -/
structure Request where
  method : Method
  path : String
  if_none_match : Option HeaderValue

/-- The slice of an actix `HttpResponse` produced by `EmbedService::call`:
status code, the `Content-Type` and `ETag` headers it may set, and the body. -/
structure Response where
  status : Nat
  content_type : Option String
  etag : Option String
  body : List Nat
deriving DecidableEq, Repr

/-- One embedded file as `rust_embed` exposes it: `data` plus the digest
`metadata.sha256_hash()` precomputed at build time. -/
structure AssetEntry where
  data : List Nat
  sha256_hash : List Nat
deriving DecidableEq, Repr

/-- The embedded asset set; `E::get` is exact-key lookup over this finite
immutable map. -/
abbrev AssetSource := List (String × AssetEntry)

/-- `E::get(path)`: exact string-key lookup in the asset set. -/
def assetGet : AssetSource → String → Option AssetEntry
  | [], _ => none
  | (k, v) :: rest, p => if k = p then some v else assetGet rest p

/-- Lowercase hex digit, as in the `hex` crate's lower table. -/
def hexDigitChar (n : Nat) : Char :=
  if n < 10 then Char.ofNat (48 + n) else Char.ofNat (87 + n)

/-- The two lowercase hex digits of one byte: high nibble then low nibble. -/
def hexByte (b : Nat) : List Char :=
  [hexDigitChar (b / 16 % 16), hexDigitChar (b % 16)]

/-- Character stream of `hex::encode`. -/
def hexChars : List Nat → List Char
  | [] => []
  | b :: bs => hexByte b ++ hexChars bs

/-- `hex::encode`: lowercase hex rendering of a byte sequence. -/
def hex_encode (bs : List Nat) : String :=
  String.mk (hexChars bs)

/-- Rust `str::trim_start_matches('/')` on the character list: removes every
leading `'/'`. -/
def trimStartSlashes : List Char → List Char
  | [] => []
  | c :: cs => if c = '/' then trimStartSlashes cs else c :: cs

/-- `path.trim_start_matches('/')`. -/
def trim_start_matches_slash (s : String) : String :=
  String.mk (trimStartSlashes s.toList)

/-- `path.trim_end_matches('/')`: removes every trailing `'/'`. -/
def trim_end_matches_slash (s : String) : String :=
  String.mk (trimStartSlashes s.toList.reverse).reverse

/-- Modelled from the spec: MIME-type inference is the external `mime_guess`
crate, out of scope of this repository and specified only at its interface —
"infer content type from the path's extension (best-effort; unknown/missing
extension maps to a generic binary stream type)".  The extension is the part
of the last path component after its last dot. -/
def extOf (path : String) : Option String :=
  let revComp := path.toList.reverse.takeWhile (fun c => c ≠ '/')
  if revComp.contains '.' then
    some (String.mk (revComp.takeWhile (fun c => c ≠ '.')).reverse)
  else
    none

/-- Modelled from the spec: `MimeGuess::from_path(path).first_or_octet_stream()`
— best-effort extension→type table with `application/octet-stream` for an
unknown or missing extension. -/
def mime_guess_first_or_octet_stream (path : String) : String :=
  match extOf path with
  | some "html" => "text/html"
  | some "htm" => "text/html"
  | some "css" => "text/css"
  | some "js" => "application/javascript"
  | some "json" => "application/json"
  | some "txt" => "text/plain"
  | some "png" => "image/png"
  | _ => "application/octet-stream"

/-- Bytes of an ASCII/UTF-8 body literal. -/
def strBytes (s : String) : List Nat :=
  s.toList.map Char.toNat

/-- `DefaultFallbackHandler::execute`: ignores the request and returns
`HttpResponse::NotFound().body("404 Not Found")`. -/
def DefaultFallbackHandler.execute (_ : Request) : Response :=
  ⟨404, none, none, strBytes "404 Not Found"⟩

/-- The `Embed` builder state (`src/service.rs`).  The `FallbackHandler`
trait (`execute(&self, req) -> HttpResponse`) is modelled as a plain
function `Request → Response`; a closure fallback is that very function and
`DefaultFallbackHandler` is `DefaultFallbackHandler.execute`. -/
structure Embed where
  mount_path : String
  index_file_path : Option String
  strict_slash : Bool
  fallback_handler : Request → Response

/-- `Embed::new`: trims every trailing `/` from the mount path, no index
file, non-strict slash, default fallback. -/
def Embed.new (mount_path : String) : Embed :=
  ⟨trim_end_matches_slash mount_path, none, false, DefaultFallbackHandler.execute⟩

/-- `Embed::strict_slash` (named `set_strict_slash` here because the Lean
field projection already uses the Rust method name). -/
def Embed.set_strict_slash (e : Embed) (b : Bool) : Embed :=
  { e with strict_slash := b }

/-- `Embed::index_file`: stores the path with trailing then leading slashes
trimmed. -/
def Embed.index_file (e : Embed) (path : String) : Embed :=
  { e with
      index_file_path :=
        some (trim_start_matches_slash (trim_end_matches_slash path)) }

/-- `Embed::fallback_handler` (named `set_fallback_handler` here because the
Lean field projection already uses the Rust method name). -/
def Embed.set_fallback_handler (e : Embed) (h : Request → Response) : Embed :=
  { e with fallback_handler := h }

/-- `EmbedServiceInner`: the per-service state captured by
`ServiceFactory::new_service`. -/
structure EmbedServiceInner where
  strict_slash : Bool
  index_file_path : Option String
  fallback_handler : Request → Response

/-- `ServiceFactory::new_service` for `Embed`. -/
def Embed.new_service (e : Embed) : EmbedServiceInner :=
  ⟨e.strict_slash, e.index_file_path, e.fallback_handler⟩

/-- Path normalization steps (a) and (b) of `call`:
`path.trim_start_matches('/')`, then, when `strict_slash` is off,
`path.trim_end_matches('/')`. -/
def strip_path (this : EmbedServiceInner) (p : String) : String :=
  let p := trim_start_matches_slash p
  if !this.strict_slash then trim_end_matches_slash p else p

/-- Full path normalization of `call`: after stripping, an empty path is
replaced by `index_file_path.as_deref().unwrap_or("")`. -/
def normalize_path (this : EmbedServiceInner) (p : String) : String :=
  let p := strip_path this p
  if p.isEmpty then this.index_file_path.getD "" else p

/-- The `match E::get(path)` arm of `EmbedService::call`: on a hit, compare
`If-None-Match` (with `to_str().unwrap_or("0")`) against the lowercase hex
digest and answer 304, else answer 200 with `Content-Type`, `ETag` and the
asset bytes; on a miss, delegate to the fallback handler. -/
def serve (this : EmbedServiceInner) (assets : AssetSource) (req : Request)
    (path : String) : Response :=
  match assetGet assets path with
  | some f =>
    let hash := hex_encode f.sha256_hash
    if (req.if_none_match.map
          (fun v => (v.to_str.getD "0") == hash)).getD false then
      ⟨304, none, none, []⟩
    else
      ⟨200, some (mime_guess_first_or_octet_stream path), some hash, f.data⟩
  | none => this.fallback_handler req

/-- `EmbedService::call`: a non-GET method short-circuits to 405 with no
body; otherwise the normalized path is served. -/
def EmbedService.call (this : EmbedServiceInner) (assets : AssetSource)
    (req : Request) : Response :=
  if req.method ≠ Method.GET then ⟨405, none, none, []⟩
  else serve this assets req (normalize_path this req.path)

/-! Concrete instances used by witnesses and counterexamples: an asset set
with the keys of the repository's own test fixture layout. -/

/-- A sample asset: body bytes `"hi"`, two-byte digest `0xabcd`. -/
def exAsset : AssetEntry := ⟨[104, 105], [171, 205]⟩

/-- A second sample asset under a nested key. -/
def exAsset2 : AssetEntry := ⟨[1, 2, 3], [0, 255]⟩

/-- A concrete asset source. -/
def exAssets : AssetSource := [("index.html", exAsset), ("dir/file", exAsset2)]

/-- Service state with the `Embed::new` defaults. -/
def exCfg : EmbedServiceInner := ⟨false, none, DefaultFallbackHandler.execute⟩

/-- Service state with `strict_slash(true)`. -/
def exCfgStrict : EmbedServiceInner := ⟨true, none, DefaultFallbackHandler.execute⟩

/-- Service state with `index_file("index.html")`. -/
def exCfgIdx : EmbedServiceInner :=
  ⟨false, some "index.html", DefaultFallbackHandler.execute⟩

/-! General lemmas about the embedded operations. -/

/-- Leading-slash stripping of an all-slash character list is empty. -/
theorem trimStartSlashes_eq_nil (l : List Char) (h : ∀ c ∈ l, c = '/') :
    trimStartSlashes l = [] := by
  induction l with
  | nil => rfl
  | cons c cs ih =>
    have hc := h c (List.mem_cons_self _ _)
    simp only [trimStartSlashes, hc, if_pos]
    exact ih fun x hx => h x (List.mem_cons_of_mem _ hx)

/-- Lookup misses when no key equals the probe. -/
theorem assetGet_eq_none (assets : AssetSource) (p : String)
    (h : ∀ kv ∈ assets, kv.1 ≠ p) : assetGet assets p = none := by
  induction assets with
  | nil => rfl
  | cons kv rest ih =>
    obtain ⟨k, v⟩ := kv
    have hk : k ≠ p := h (k, v) (List.mem_cons_self _ _)
    simp only [assetGet, if_neg hk]
    exact ih fun kv hkv => h kv (List.mem_cons_of_mem _ hkv)

/-- Each lowercase hex digit is visible ASCII. -/
theorem hexDigitChar_visible (n : Nat) (h : n < 16) :
    isVisibleAscii (hexDigitChar n).toNat = true := by
  interval_cases n <;> decide

/-- Every character of a hex encoding is visible ASCII. -/
theorem hexChars_visible (bs : List Nat) :
    ∀ c ∈ hexChars bs, isVisibleAscii c.toNat = true := by
  induction bs with
  | nil => simp [hexChars]
  | cons b bs ih =>
    intro c hc
    simp only [hexChars, hexByte, List.cons_append, List.nil_append,
      List.mem_cons] at hc
    rcases hc with h | h | h
    · subst h; exact hexDigitChar_visible _ (Nat.mod_lt _ (by decide))
    · subst h; exact hexDigitChar_visible _ (Nat.mod_lt _ (by decide))
    · exact ih c h

/-- Round-tripping characters through their code points is the identity. -/
theorem map_ofNat_toNat (l : List Char) :
    (l.map Char.toNat).map Char.ofNat = l := by
  induction l with
  | nil => rfl
  | cons c cs ih => simp [ih, Char.ofNat_toNat]

/-- A header value holding a hex digest string parses back to that string:
`to_str` succeeds because hex encodings are visible ASCII. -/
theorem to_str_ofString_hex (bs : List Nat) :
    (HeaderValue.ofString (hex_encode bs)).to_str = some (hex_encode bs) := by
  have htl : (hex_encode bs).toList = hexChars bs := rfl
  have hall : (((hex_encode bs).toList.map Char.toNat).all isVisibleAscii) = true := by
    rw [List.all_eq_true]
    intro b hb
    rw [List.mem_map] at hb
    obtain ⟨c, hc, rfl⟩ := hb
    exact hexChars_visible bs c (htl ▸ hc)
  unfold HeaderValue.ofString HeaderValue.to_str
  rw [if_pos hall]
  rw [map_ofNat_toNat]
  rfl

/-- A hex encoding writes two characters per byte. -/
theorem hexChars_length (bs : List Nat) :
    (hexChars bs).length = 2 * bs.length := by
  induction bs with
  | nil => rfl
  | cons b bs ih =>
    simp [hexChars, hexByte, ih]
    omega

/-- No hex encoding is the one-character string `"0"` (every encoding has
even length), so the `unwrap_or("0")` sentinel can never match an ETag. -/
theorem hex_encode_ne_zero (bs : List Nat) : hex_encode bs ≠ "0" := by
  intro h
  have hlist : hexChars bs = ['0'] := congrArg String.data h
  have hl := congrArg List.length hlist
  rw [hexChars_length] at hl
  simp only [List.length_singleton] at hl
  omega

/-- On a GET request, `call` serves the normalized path. -/
theorem call_get (this : EmbedServiceInner) (assets : AssetSource)
    (req : Request) (hm : req.method = Method.GET) :
    EmbedService.call this assets req =
      serve this assets req (normalize_path this req.path) := by
  simp [EmbedService.call, hm]

/-- `call` on a GET request, rewritten along a computed normalization. -/
theorem call_eq_serve (this : EmbedServiceInner) (assets : AssetSource)
    (p q : String) (hdr : Option HeaderValue)
    (hnorm : normalize_path this p = q) :
    EmbedService.call this assets ⟨Method.GET, p, hdr⟩ =
      serve this assets ⟨Method.GET, p, hdr⟩ q := by
  rw [call_get _ _ _ rfl]
  exact congrArg (serve this assets _) hnorm

/-- A hit with no `If-None-Match` header produces the full 200 response. -/
theorem serve_hit_no_header (this : EmbedServiceInner) (assets : AssetSource)
    (req : Request) (path : String) (f : AssetEntry)
    (hget : assetGet assets path = some f)
    (hh : req.if_none_match = none) :
    serve this assets req path =
      ⟨200, some (mime_guess_first_or_octet_stream path),
       some (hex_encode f.sha256_hash), f.data⟩ := by
  simp [serve, hget, hh]

/-- A miss delegates to the fallback handler. -/
theorem serve_miss (this : EmbedServiceInner) (assets : AssetSource)
    (req : Request) (path : String)
    (hmiss : assetGet assets path = none) :
    serve this assets req path = this.fallback_handler req := by
  simp [serve, hmiss]

/-- A nonempty stripped path is the normalized path. -/
theorem normalize_of_strip (this : EmbedServiceInner) (p q : String)
    (h : strip_path this p = q) (hq : q.isEmpty = false) :
    normalize_path this p = q := by
  simp [normalize_path, h, hq]

/-- An empty stripped path normalizes to the index file (or stays empty). -/
theorem normalize_of_strip_empty (this : EmbedServiceInner) (p : String)
    (h : strip_path this p = "") :
    normalize_path this p = this.index_file_path.getD "" := by
  have he : ("" : String).isEmpty = true := rfl
  simp [normalize_path, h, he]

/-- Stripping under `strict_slash` only trims the leading slashes. -/
theorem strip_path_strict (this : EmbedServiceInner) (p : String)
    (hs : this.strict_slash = true) :
    strip_path this p = trim_start_matches_slash p := by
  simp [strip_path, hs]

/-- Stripping without `strict_slash` trims both ends. -/
theorem strip_path_nonstrict (this : EmbedServiceInner) (p : String)
    (hs : this.strict_slash = false) :
    strip_path this p =
      trim_end_matches_slash (trim_start_matches_slash p) := by
  simp [strip_path, hs]

/-- When both slash policies agree on a path, stripping is that value for
any configuration. -/
theorem strip_path_eq (this : EmbedServiceInner) (p q : String)
    (h1 : trim_end_matches_slash (trim_start_matches_slash p) = q)
    (h2 : trim_start_matches_slash p = q) :
    strip_path this p = q := by
  unfold strip_path
  cases this.strict_slash <;> simpa

/-! The claims. -/

/-- Claim C1: a GET request whose normalized path exists in the asset source
and that carries no `If-None-Match` header gets status 200 with an `ETag`
equal to the lowercase hex encoding of the asset's precomputed digest, a
`Content-Type` inferred from the path's extension, and the asset's bytes as
body. -/
theorem get_hit_full_response_C1 (this : EmbedServiceInner)
    (assets : AssetSource) (req : Request) (f : AssetEntry)
    (hm : req.method = Method.GET)
    (hh : req.if_none_match = none)
    (hget : assetGet assets (normalize_path this req.path) = some f) :
    EmbedService.call this assets req =
      ⟨200, some (mime_guess_first_or_octet_stream (normalize_path this req.path)),
       some (hex_encode f.sha256_hash), f.data⟩ := by
  rw [call_get this assets req hm]
  exact serve_hit_no_header this assets req _ f hget hh

/-- Witness for C1 at a concrete input. -/
theorem get_hit_full_response_C1_witness :
    EmbedService.call exCfg exAssets ⟨Method.GET, "/index.html", none⟩ =
      ⟨200, some "text/html", some "abcd", [104, 105]⟩ :=
  (get_hit_full_response_C1 exCfg exAssets ⟨Method.GET, "/index.html", none⟩
    exAsset rfl rfl (by decide)).trans (by decide)

/-- Claim C2: when a GET on an asset path yields 200 with some ETag, a
second GET for the same path whose `If-None-Match` header is exactly that
ETag value yields status 304 with an empty body. -/
theorem conditional_get_roundtrip_C2 (this : EmbedServiceInner)
    (assets : AssetSource) (p : String) (f : AssetEntry) (t : String)
    (hget : assetGet assets (normalize_path this p) = some f)
    (_hstatus : (EmbedService.call this assets ⟨Method.GET, p, none⟩).status = 200)
    (hetag : (EmbedService.call this assets ⟨Method.GET, p, none⟩).etag = some t) :
    EmbedService.call this assets
        ⟨Method.GET, p, some (HeaderValue.ofString t)⟩ =
      ⟨304, none, none, []⟩ := by
  have h1 : EmbedService.call this assets ⟨Method.GET, p, none⟩ =
      ⟨200, some (mime_guess_first_or_octet_stream (normalize_path this p)),
       some (hex_encode f.sha256_hash), f.data⟩ := by
    rw [call_get _ _ _ rfl]
    exact serve_hit_no_header _ _ _ _ f hget rfl
  rw [h1] at hetag
  have ht : t = hex_encode f.sha256_hash := by
    have := hetag.symm
    simpa using this
  subst ht
  rw [call_get _ _ _ rfl]
  simp [serve, hget, to_str_ofString_hex]

/-- Witness for C2 at a concrete input. -/
theorem conditional_get_roundtrip_C2_witness :
    EmbedService.call exCfg exAssets
        ⟨Method.GET, "/index.html", some (HeaderValue.ofString "abcd")⟩ =
      ⟨304, none, none, []⟩ :=
  conditional_get_roundtrip_C2 exCfg exAssets "/index.html" exAsset "abcd"
    (by decide) (by decide) (by decide)

/-- Claim C3 as stated is false: `trim_start_matches('/')` removes every
leading slash, not exactly one, so `//index.html` normalizes to
`index.html` — not to `/index.html` — and is a hit, not a miss, when the
asset `index.html` exists (the configured fallback answers 404, so status
200 shows the lookup succeeded). -/
theorem leading_slash_counterexample_C3 :
    normalize_path exCfg "//index.html" = "index.html" ∧
    normalize_path exCfg "//index.html" ≠ "/index.html" ∧
    (EmbedService.call exCfg exAssets
        ⟨Method.GET, "//index.html", none⟩).status = 200 ∧
    (EmbedService.call exCfg exAssets
        ⟨Method.GET, "//index.html", none⟩).body = exAsset.data := by
  decide

/-- Claim C3 (amended): path normalization strips every leading `/` from the
request path before lookup; a request path beginning with two slashes keeps
no leading slash in the lookup key, so `//index.html` hits whenever asset
`index.html` exists. -/
theorem leading_slashes_amended_C3 (this : EmbedServiceInner)
    (assets : AssetSource) (f : AssetEntry)
    (hget : assetGet assets "index.html" = some f) :
    strip_path this "//index.html" = "index.html" ∧
    EmbedService.call this assets ⟨Method.GET, "//index.html", none⟩ =
      ⟨200, some (mime_guess_first_or_octet_stream "index.html"),
       some (hex_encode f.sha256_hash), f.data⟩ := by
  have hstrip : strip_path this "//index.html" = "index.html" :=
    strip_path_eq this _ _ (by decide) (by decide)
  have hnorm : normalize_path this "//index.html" = "index.html" :=
    normalize_of_strip this _ _ hstrip (by decide)
  exact ⟨hstrip,
    (call_eq_serve this assets _ _ none hnorm).trans
      (serve_hit_no_header this assets _ _ f hget rfl)⟩

/-- Witness for the amended C3 at a concrete input. -/
theorem leading_slashes_amended_C3_witness :
    strip_path exCfg "//index.html" = "index.html" ∧
    EmbedService.call exCfg exAssets ⟨Method.GET, "//index.html", none⟩ =
      ⟨200, some (mime_guess_first_or_octet_stream "index.html"),
       some (hex_encode exAsset.sha256_hash), exAsset.data⟩ :=
  leading_slashes_amended_C3 exCfg exAssets exAsset (by decide)

/-- Claim C4 as stated is false: with `strict_slash` off,
`trim_end_matches('/')` removes every trailing slash, not exactly one, so
`/dir/file//` normalizes to `dir/file` — not to `dir/file/` — and hits
when the asset `dir/file` exists. -/
theorem trailing_slash_counterexample_C4 :
    normalize_path exCfg "/dir/file//" = "dir/file" ∧
    normalize_path exCfg "/dir/file//" ≠ "dir/file/" ∧
    (EmbedService.call exCfg exAssets
        ⟨Method.GET, "/dir/file//", none⟩).status = 200 ∧
    (EmbedService.call exCfg exAssets
        ⟨Method.GET, "/dir/file//", none⟩).body = exAsset2.data := by
  decide

/-- Claim C4 (amended): when `strict_slash` is false, normalization strips
every trailing `/` before lookup, so `/dir/file/`, `/dir/file//` and
`/dir/file` are all equivalent and all hit when asset `dir/file` exists. -/
theorem trailing_slashes_amended_C4 (this : EmbedServiceInner)
    (assets : AssetSource) (f : AssetEntry)
    (hs : this.strict_slash = false)
    (hget : assetGet assets "dir/file" = some f) :
    (EmbedService.call this assets ⟨Method.GET, "/dir/file/", none⟩ =
       EmbedService.call this assets ⟨Method.GET, "/dir/file", none⟩) ∧
    (EmbedService.call this assets ⟨Method.GET, "/dir/file//", none⟩ =
       EmbedService.call this assets ⟨Method.GET, "/dir/file", none⟩) ∧
    (EmbedService.call this assets
        ⟨Method.GET, "/dir/file//", none⟩).status = 200 := by
  have n1 : normalize_path this "/dir/file/" = "dir/file" :=
    normalize_of_strip this _ _
      (by rw [strip_path_nonstrict this _ hs]; decide) (by decide)
  have n2 : normalize_path this "/dir/file" = "dir/file" :=
    normalize_of_strip this _ _
      (by rw [strip_path_nonstrict this _ hs]; decide) (by decide)
  have n3 : normalize_path this "/dir/file//" = "dir/file" :=
    normalize_of_strip this _ _
      (by rw [strip_path_nonstrict this _ hs]; decide) (by decide)
  have c1 := (call_eq_serve this assets _ _ none n1).trans
    (serve_hit_no_header this assets _ _ f hget rfl)
  have c2 := (call_eq_serve this assets _ _ none n2).trans
    (serve_hit_no_header this assets _ _ f hget rfl)
  have c3 := (call_eq_serve this assets _ _ none n3).trans
    (serve_hit_no_header this assets _ _ f hget rfl)
  exact ⟨c1.trans c2.symm, c3.trans c2.symm, by rw [c3]⟩

/-- Witness for the amended C4 at a concrete input. -/
theorem trailing_slashes_amended_C4_witness :
    (EmbedService.call exCfg exAssets ⟨Method.GET, "/dir/file/", none⟩ =
       EmbedService.call exCfg exAssets ⟨Method.GET, "/dir/file", none⟩) ∧
    (EmbedService.call exCfg exAssets ⟨Method.GET, "/dir/file//", none⟩ =
       EmbedService.call exCfg exAssets ⟨Method.GET, "/dir/file", none⟩) ∧
    (EmbedService.call exCfg exAssets
        ⟨Method.GET, "/dir/file//", none⟩).status = 200 :=
  trailing_slashes_amended_C4 exCfg exAssets exAsset2 rfl (by decide)

/-- Claim C5: a GET whose normalized path has no matching asset returns the
configured fallback's response verbatim; a custom fallback answering 200
with body "not found" is returned exactly, and the default fallback answers
404 with the fixed body "404 Not Found". -/
theorem miss_fallback_C5 (this : EmbedServiceInner) (assets : AssetSource)
    (req : Request)
    (hm : req.method = Method.GET)
    (hmiss : assetGet assets (normalize_path this req.path) = none) :
    (EmbedService.call this assets req = this.fallback_handler req) ∧
    (EmbedService.call
        ⟨this.strict_slash, this.index_file_path,
         fun _ => ⟨200, none, none, strBytes "not found"⟩⟩ assets req =
      ⟨200, none, none, strBytes "not found"⟩) ∧
    (DefaultFallbackHandler.execute req =
      ⟨404, none, none, strBytes "404 Not Found"⟩) := by
  have hn : normalize_path
      ⟨this.strict_slash, this.index_file_path,
       fun _ => ⟨200, none, none, strBytes "not found"⟩⟩ req.path =
      normalize_path this req.path := rfl
  refine ⟨?_, ?_, rfl⟩
  · rw [call_get _ _ _ hm]
    exact serve_miss _ _ _ _ hmiss
  · rw [call_get _ _ _ hm, hn]
    exact serve_miss _ _ _ _ hmiss

/-- Witness for C5 at a concrete input. -/
theorem miss_fallback_C5_witness :
    (EmbedService.call exCfg exAssets ⟨Method.GET, "/missing.js", none⟩ =
       exCfg.fallback_handler ⟨Method.GET, "/missing.js", none⟩) ∧
    (EmbedService.call
        ⟨exCfg.strict_slash, exCfg.index_file_path,
         fun _ => ⟨200, none, none, strBytes "not found"⟩⟩ exAssets
        ⟨Method.GET, "/missing.js", none⟩ =
      ⟨200, none, none, strBytes "not found"⟩) ∧
    (DefaultFallbackHandler.execute ⟨Method.GET, "/missing.js", none⟩ =
      ⟨404, none, none, strBytes "404 Not Found"⟩) :=
  miss_fallback_C5 exCfg exAssets ⟨Method.GET, "/missing.js", none⟩ rfl
    (by decide)

/-- Claim C6: any request whose method is not GET answers 405 with no body,
whatever the path, the asset set, or the headers. -/
theorem non_get_405_C6 (this : EmbedServiceInner) (assets : AssetSource)
    (req : Request) (hm : req.method ≠ Method.GET) :
    EmbedService.call this assets req = ⟨405, none, none, []⟩ := by
  simp [EmbedService.call, hm]

/-- Witness for C6 at a concrete input. -/
theorem non_get_405_C6_witness :
    EmbedService.call exCfg exAssets ⟨Method.POST, "/index.html", none⟩ =
      ⟨405, none, none, []⟩ :=
  non_get_405_C6 exCfg exAssets ⟨Method.POST, "/index.html", none⟩ (by decide)

/-- Claim C7: with no index file configured a GET for the mount root is a
miss handed to the fallback; with `index_file("index.html")` configured and
`index.html` present, a GET for the root and a GET for `/index.html` return
identical status and bodies. -/
theorem index_file_resolution_C7 (s : Bool) (fb : Request → Response)
    (assets : AssetSource) (f : AssetEntry)
    (hroot : assetGet assets "" = none)
    (hidx : assetGet assets "index.html" = some f) :
    (EmbedService.call ⟨s, none, fb⟩ assets ⟨Method.GET, "/", none⟩ =
       fb ⟨Method.GET, "/", none⟩) ∧
    ((EmbedService.call ⟨s, some "index.html", fb⟩ assets
        ⟨Method.GET, "/", none⟩).status =
     (EmbedService.call ⟨s, some "index.html", fb⟩ assets
        ⟨Method.GET, "/index.html", none⟩).status) ∧
    ((EmbedService.call ⟨s, some "index.html", fb⟩ assets
        ⟨Method.GET, "/", none⟩).body =
     (EmbedService.call ⟨s, some "index.html", fb⟩ assets
        ⟨Method.GET, "/index.html", none⟩).body) := by
  have n0 : normalize_path ⟨s, none, fb⟩ "/" = "" := by
    rw [normalize_of_strip_empty _ _ (strip_path_eq _ _ _ (by decide) (by decide))]
    rfl
  have n1 : normalize_path ⟨s, some "index.html", fb⟩ "/" = "index.html" := by
    rw [normalize_of_strip_empty _ _ (strip_path_eq _ _ _ (by decide) (by decide))]
    rfl
  have n2 : normalize_path ⟨s, some "index.html", fb⟩ "/index.html" =
      "index.html" :=
    normalize_of_strip _ _ _ (strip_path_eq _ _ _ (by decide) (by decide))
      (by decide)
  have c0 := (call_eq_serve ⟨s, none, fb⟩ assets "/" "" none n0).trans
    (serve_miss _ _ _ _ hroot)
  have cA := (call_eq_serve ⟨s, some "index.html", fb⟩ assets "/" "index.html"
      none n1).trans (serve_hit_no_header _ _ _ _ f hidx rfl)
  have cB := (call_eq_serve ⟨s, some "index.html", fb⟩ assets "/index.html"
      "index.html" none n2).trans (serve_hit_no_header _ _ _ _ f hidx rfl)
  exact ⟨c0, by rw [cA, cB], by rw [cA, cB]⟩

/-- Witness for C7 at a concrete input. -/
theorem index_file_resolution_C7_witness :
    (EmbedService.call ⟨false, none, DefaultFallbackHandler.execute⟩ exAssets
        ⟨Method.GET, "/", none⟩ =
       DefaultFallbackHandler.execute ⟨Method.GET, "/", none⟩) ∧
    ((EmbedService.call ⟨false, some "index.html", DefaultFallbackHandler.execute⟩
        exAssets ⟨Method.GET, "/", none⟩).status =
     (EmbedService.call ⟨false, some "index.html", DefaultFallbackHandler.execute⟩
        exAssets ⟨Method.GET, "/index.html", none⟩).status) ∧
    ((EmbedService.call ⟨false, some "index.html", DefaultFallbackHandler.execute⟩
        exAssets ⟨Method.GET, "/", none⟩).body =
     (EmbedService.call ⟨false, some "index.html", DefaultFallbackHandler.execute⟩
        exAssets ⟨Method.GET, "/index.html", none⟩).body) :=
  index_file_resolution_C7 false DefaultFallbackHandler.execute exAssets exAsset
    (by decide) (by decide)

/-- Claim C8: a malformed `If-None-Match` value (one `to_str` rejects) is
treated as a non-match: a GET hitting an existing asset with such a header
still gets the full 200 response, because the `unwrap_or("0")` sentinel can
never equal a hex digest. -/
theorem malformed_if_none_match_C8 (this : EmbedServiceInner)
    (assets : AssetSource) (p : String) (v : HeaderValue) (f : AssetEntry)
    (hget : assetGet assets (normalize_path this p) = some f)
    (hbad : v.to_str = none) :
    EmbedService.call this assets ⟨Method.GET, p, some v⟩ =
      ⟨200, some (mime_guess_first_or_octet_stream (normalize_path this p)),
       some (hex_encode f.sha256_hash), f.data⟩ := by
  rw [call_get _ _ _ rfl]
  simp [serve, hget, hbad, Ne.symm (hex_encode_ne_zero f.sha256_hash)]

/-- Witness for C8 at a concrete input: the single byte 200 is not visible
ASCII, so the header value fails `to_str`. -/
theorem malformed_if_none_match_C8_witness :
    EmbedService.call exCfg exAssets
        ⟨Method.GET, "/index.html", some ⟨[200]⟩⟩ =
      ⟨200, some (mime_guess_first_or_octet_stream (normalize_path exCfg "/index.html")),
       some (hex_encode exAsset.sha256_hash), exAsset.data⟩ :=
  malformed_if_none_match_C8 exCfg exAssets "/index.html" ⟨[200]⟩ exAsset
    (by decide) (by decide)

/-- Claim C9: with `strict_slash(true)`, a GET for `/index.html/` misses and
is handed to the fallback even though `/index.html` hits, because the
trailing slash is preserved into the lookup key and no asset key ends in a
slash. -/
theorem strict_slash_trailing_miss_C9 (this : EmbedServiceInner)
    (assets : AssetSource) (f : AssetEntry) (hdr : Option HeaderValue)
    (hs : this.strict_slash = true)
    (hkeys : ∀ kv ∈ assets, kv.1.toList.getLast? ≠ some '/')
    (hhit : assetGet assets "index.html" = some f) :
    (EmbedService.call this assets ⟨Method.GET, "/index.html/", hdr⟩ =
       this.fallback_handler ⟨Method.GET, "/index.html/", hdr⟩) ∧
    (EmbedService.call this assets ⟨Method.GET, "/index.html", none⟩).status
      = 200 := by
  have hmiss : assetGet assets "index.html/" = none := by
    apply assetGet_eq_none
    intro kv hkv heq
    apply hkeys kv hkv
    rw [heq]
    all_goals decide
  have n1 : normalize_path this "/index.html/" = "index.html/" :=
    normalize_of_strip this _ _
      (by rw [strip_path_strict this _ hs]; decide) (by decide)
  have n2 : normalize_path this "/index.html" = "index.html" :=
    normalize_of_strip this _ _
      (by rw [strip_path_strict this _ hs]; decide) (by decide)
  constructor
  · exact (call_eq_serve this assets _ _ hdr n1).trans
      (serve_miss this assets _ _ hmiss)
  · rw [(call_eq_serve this assets _ _ none n2).trans
      (serve_hit_no_header this assets _ _ f hhit rfl)]

/-- Witness for C9 at a concrete input. -/
theorem strict_slash_trailing_miss_C9_witness :
    (EmbedService.call exCfgStrict exAssets ⟨Method.GET, "/index.html/", none⟩ =
       exCfgStrict.fallback_handler ⟨Method.GET, "/index.html/", none⟩) ∧
    (EmbedService.call exCfgStrict exAssets
        ⟨Method.GET, "/index.html", none⟩).status = 200 :=
  strict_slash_trailing_miss_C9 exCfgStrict exAssets exAsset none rfl
    (by decide) (by decide)

/-- Claim C10: for a GET whose path consists only of slashes, and whatever
`strict_slash` is, leading-slash stripping alone already empties the path,
so the lookup key is the configured index file when one is set, and the
request is a miss (handled by the fallback) otherwise. -/
theorem slashes_only_path_C10 (this : EmbedServiceInner)
    (assets : AssetSource) (hdr : Option HeaderValue) (p : String)
    (hp : ∀ c ∈ p.toList, c = '/') :
    (trim_start_matches_slash p = "") ∧
    (normalize_path this p = this.index_file_path.getD "") ∧
    (∀ i, this.index_file_path = some i →
       EmbedService.call this assets ⟨Method.GET, p, hdr⟩ =
         serve this assets ⟨Method.GET, p, hdr⟩ i) ∧
    (this.index_file_path = none → assetGet assets "" = none →
       EmbedService.call this assets ⟨Method.GET, p, hdr⟩ =
         this.fallback_handler ⟨Method.GET, p, hdr⟩) := by
  have h1 : trim_start_matches_slash p = "" := by
    unfold trim_start_matches_slash
    rw [trimStartSlashes_eq_nil p.toList hp]
  have hstrip : strip_path this p = "" := by
    cases hss : this.strict_slash
    · simp [strip_path, hss, h1]
      decide
    · simp [strip_path, hss, h1]
  have hnorm := normalize_of_strip_empty this p hstrip
  refine ⟨h1, hnorm, ?_, ?_⟩
  · intro i hi
    apply call_eq_serve
    rw [hnorm, hi]
    rfl
  · intro hni hroot
    have hn : normalize_path this p = "" := by rw [hnorm, hni]; rfl
    exact (call_eq_serve this assets _ _ hdr hn).trans
      (serve_miss this assets _ _ hroot)

/-- Witness for C10 at a concrete input. -/
theorem slashes_only_path_C10_witness :
    normalize_path exCfgIdx "//" = "index.html" ∧
    EmbedService.call exCfgIdx exAssets ⟨Method.GET, "//", none⟩ =
      serve exCfgIdx exAssets ⟨Method.GET, "//", none⟩ "index.html" := by
  have h := slashes_only_path_C10 exCfgIdx exAssets none "//" (by decide)
  exact ⟨h.2.1, h.2.2.1 "index.html" rfl⟩

end ActixEmbed
